import Mathlib

/-!
# Verification of the Qualia touch-painter (`code.py`)

A shallow embedding of the paint-surface engine of `code.py`, an optimized
touch-painting demo for the Adafruit Qualia board with the `SQUARE40`
720x720 display (the source states "assuming 720x720 display").

Modelling conventions:
* the displayio bitmap becomes a total function `Int → Int → Nat`
  (coordinates to RGB565 pixel value); every mutation of the source is a
  pointwise functional update, and the loops of the source become `List.foldl`
  over the very index lists the Python `range` calls produce;
* `time.monotonic()` timestamps (Python floats) are modelled as exact
  rationals `ℚ`;
* the float interpolation `int(x1 + (i/steps) * (x2 - x1))` of `draw_line`
  is modelled in exact rational arithmetic: since `x1` is an integer the
  value equals `(x1*steps + i*(x2-x1)) / steps`, and Python `int()`
  truncates toward zero, which is `Int.tdiv`.
-/

/-- A displayio bitmap, modelled as a total assignment of a pixel value to
every integer coordinate pair.  The source only ever writes coordinates
inside `[0, W) × [0, H)` (each write is bounds-checked first). -/
def Bitmap : Type := Int → Int → Nat

/-- One assignment `bitmap[x, y] = color` of the source, as a pointwise
functional update. -/
def setPixel (bm : Bitmap) (x y : Int) (c : Nat) : Bitmap :=
  fun px py => if px = x ∧ py = y then c else bm px py

/-- `graphics.display.width` for `Displays.SQUARE40` (code.py line 18:
"Configuration - assuming 720x720 display"). -/
def display_width : Nat := 720

/-- `graphics.display.height` for `Displays.SQUARE40`. -/
def display_height : Nat := 720

/-- code.py line 19: `palette_width = 160`. -/
def palette_width : Nat := 160

/-- code.py line 20: `drawing_area_width = graphics.display.width - palette_width`. -/
def drawing_area_width : Nat := display_width - palette_width

/-- code.py line 21: `drawing_area_height = graphics.display.height`. -/
def drawing_area_height : Nat := display_height

/-- code.py line 24: `section_height = graphics.display.height // 9`. -/
def section_height : Nat := display_height / 9

/-- code.py line 25: `brush_sizes = [1, 3, 6, 9, 12]`. -/
def brush_sizes : List Nat := [1, 3, 6, 9, 12]

/-- code.py line 204: `touch_delay = 0.005`. -/
def touch_delay : ℚ := 5 / 1000

/-- code.py line 213: `button_debounce_time = 0.5`. -/
def button_debounce_time : ℚ := 1 / 2

/-- The body of the innermost loop of `draw_brush` (code.py lines 57-61):
compute the target cell, bounds-check it against the display, and write
`color` if it is inside. -/
def stampCell (W H : Nat) (color : Nat) (bm : Bitmap) (p : Int × Int) : Bitmap :=
  if 0 ≤ p.1 ∧ p.1 < (W : Int) ∧ 0 ≤ p.2 ∧ p.2 < (H : Int) then
    setPixel bm p.1 p.2 color
  else bm

/-- The list of loop offsets `range(-half_size, half_size + 1)` used by both
nested loops of `draw_brush` (code.py lines 54-56), for `half_size = size // 2`. -/
def brush_offsets (size : Nat) : List Int :=
  (List.range (2 * (size / 2) + 1)).map
    (fun (k : Nat) => ((k : Int) - ((size / 2 : Nat) : Int)))

/-- code.py lines 52-61, `draw_brush(bitmap, x, y, color, size)`: two nested
loops over `range(-half_size, half_size + 1)` each performing a
bounds-checked pixel write.  `W`, `H` stand for `graphics.display.width`
and `graphics.display.height`. -/
def draw_brush (W H : Nat) (bm : Bitmap) (x y : Int) (color size : Nat) : Bitmap :=
  (brush_offsets size).foldl
    (fun bmi i =>
      (brush_offsets size).foldl
        (fun bmj j => stampCell W H color bmj (x + i, y + j))
        bmi)
    bm

theorem mem_brush_offsets (size : Nat) (k : Int) :
    k ∈ brush_offsets size ↔ k.natAbs ≤ size / 2 := by
  rw [brush_offsets, List.mem_map]
  constructor
  · rintro ⟨m, hm, rfl⟩
    rw [List.mem_range] at hm
    omega
  · intro h
    refine ⟨(k + ((size / 2 : Nat) : Int)).toNat, ?_, by omega⟩
    rw [List.mem_range]
    omega

theorem foldl_stampCell (W H color : Nat) (ps : List (Int × Int)) (bm : Bitmap)
    (px py : Int) :
    List.foldl (stampCell W H color) bm ps px py =
      if (px, py) ∈ ps ∧ 0 ≤ px ∧ px < (W : Int) ∧ 0 ≤ py ∧ py < (H : Int) then color
      else bm px py := by
  induction ps generalizing bm with
  | nil => simp
  | cons q ps ih =>
    rw [List.foldl_cons, ih]
    by_cases hq : q = (px, py)
    · subst hq
      by_cases hb : 0 ≤ px ∧ px < (W : Int) ∧ 0 ≤ py ∧ py < (H : Int)
      · by_cases hm : (px, py) ∈ ps
        · simp [hm, hb]
        · simp [hm, hb, stampCell, setPixel]
      · simp [hb, stampCell]
    · have hval : stampCell W H color bm q px py = bm px py := by
        have hne : ¬(px = q.1 ∧ py = q.2) := by
          rintro ⟨h1, h2⟩
          exact hq (Prod.ext h1.symm h2.symm)
        unfold stampCell setPixel
        split <;> simp [hne]
      rw [hval]
      have hiff : (px, py) ∈ q :: ps ↔ (px, py) ∈ ps := by
        constructor
        · intro h
          rcases List.mem_cons.mp h with h1 | h1
          · exact absurd h1.symm hq
          · exact h1
        · exact fun h => List.mem_cons_of_mem _ h
      apply if_congr (and_congr_left fun _ => hiff.symm) rfl rfl

theorem foldl_foldl_eq_foldl_flatMap {α β γ : Type} (f : β → γ → β)
    (l : List α) (gs : α → List γ) (b : β) :
    l.foldl (fun acc a => (gs a).foldl f acc) b =
      (l.flatMap gs).foldl f b := by
  induction l generalizing b with
  | nil => rfl
  | cons a l ih => simp [List.foldl_cons, List.flatMap_cons, List.foldl_append, ih]

/-- The cells attempted by `draw_brush` at center `(x, y)`: the square of
offsets produced by the two nested loops. -/
def brush_cells (x y : Int) (size : Nat) : List (Int × Int) :=
  (brush_offsets size).flatMap
    (fun i => (brush_offsets size).map (fun j => (x + i, y + j)))

theorem draw_brush_eq_foldl (W H : Nat) (bm : Bitmap) (x y : Int) (color size : Nat) :
    draw_brush W H bm x y color size =
      (brush_cells x y size).foldl (stampCell W H color) bm := by
  unfold draw_brush brush_cells
  rw [← foldl_foldl_eq_foldl_flatMap]
  simp [List.foldl_map]

theorem mem_brush_cells (x y px py : Int) (size : Nat) :
    (px, py) ∈ brush_cells x y size ↔
      max (px - x).natAbs (py - y).natAbs ≤ size / 2 := by
  simp only [brush_cells, List.mem_flatMap, List.mem_map, mem_brush_offsets,
    Prod.mk.injEq]
  constructor
  · rintro ⟨i, hi, j, hj, rfl, rfl⟩
    omega
  · intro h
    exact ⟨px - x, by omega, py - y, by omega, by omega, by omega⟩

/-- Pointwise characterization of `draw_brush`: a pixel receives `color`
exactly when it is in bounds and within Chebyshev distance `size / 2` of the
center; every other pixel keeps its old value. -/
theorem draw_brush_spec (W H : Nat) (bm : Bitmap) (x y : Int) (color size : Nat)
    (px py : Int) :
    draw_brush W H bm x y color size px py =
      if 0 ≤ px ∧ px < (W : Int) ∧ 0 ≤ py ∧ py < (H : Int) ∧
          max (px - x).natAbs (py - y).natAbs ≤ size / 2 then color
      else bm px py := by
  rw [draw_brush_eq_foldl, foldl_stampCell]
  apply if_congr _ rfl rfl
  rw [mem_brush_cells]
  constructor
  · rintro ⟨h1, h2⟩
    exact ⟨h2.1, h2.2.1, h2.2.2.1, h2.2.2.2, h1⟩
  · rintro ⟨h1, h2, h3, h4, h5⟩
    exact ⟨h5, h1, h2, h3, h4⟩

/-- C1: for every brush size from the program's size list, every color and
center, `draw_brush` paints exactly the in-bounds pixels within Chebyshev
distance `⌊size/2⌋` of the center and leaves all other pixels unchanged. -/
theorem brush_paints_exactly_chebyshev_ball (W H : Nat) (bm : Bitmap) (x y : Int)
    (color size : Nat) (hs : size ∈ brush_sizes) (px py : Int) :
    draw_brush W H bm x y color size px py =
      if 0 ≤ px ∧ px < (W : Int) ∧ 0 ≤ py ∧ py < (H : Int) ∧
          max (px - x).natAbs (py - y).natAbs ≤ size / 2 then color
      else bm px py :=
  draw_brush_spec W H bm x y color size px py

theorem brush_paints_exactly_chebyshev_ball_witness :
    (6 ∈ brush_sizes) ∧
      draw_brush 20 20 (fun _ _ => 0) 10 10 7 6 12 9 = 7 ∧
      draw_brush 20 20 (fun _ _ => 0) 10 10 7 6 14 10 = 0 := by
  refine ⟨by decide, ?_, ?_⟩
  · rw [brush_paints_exactly_chebyshev_ball 20 20 (fun _ _ => 0) 10 10 7 6
      (by decide) 12 9]
    decide
  · rw [brush_paints_exactly_chebyshev_ball 20 20 (fun _ _ => 0) 10 10 7 6
      (by decide) 14 10]
    decide

/-- The number of distinct columns of a `W × H` canvas holding at least one
pixel of value `c` (used to measure the footprint a brush stamp writes). -/
def touched_cols (W H : Nat) (bm : Bitmap) (c : Nat) : Nat :=
  ((List.range W).filter
    (fun (px : Nat) => (List.range H).any
      (fun (py : Nat) => bm ((px : Nat) : Int) ((py : Nat) : Int) == c))).length

/-- The number of distinct rows of a `W × H` canvas holding at least one
pixel of value `c`. -/
def touched_rows (W H : Nat) (bm : Bitmap) (c : Nat) : Nat :=
  ((List.range H).filter
    (fun (py : Nat) => (List.range W).any
      (fun (px : Nat) => bm ((px : Nat) : Int) ((py : Nat) : Int) == c))).length

set_option maxRecDepth 100000 in
/-- C2 counterexample: stamping size 6 on a blank canvas touches 7 distinct
columns, not 6: `half = 6 // 2 = 3` and the loops run over `-3..3`, so the
footprint side is `2*(size//2) + 1`, which differs from `size` for the even
sizes 6 and 12. -/
theorem brush_side_not_size_for_even :
    touched_cols 15 15 (draw_brush 15 15 (fun _ _ => 0) 7 7 1 6) 1 ≠ 6 := by
  decide

set_option maxRecDepth 1000000 in
/-- C2 amended: for every size in the program's size list the stamp touches
exactly `2*(size//2) + 1` distinct columns and rows (`size` for the odd
sizes 1, 3, 9 and `size + 1` for the even sizes 6 and 12), here measured on
a blank 15×15 canvas with the stamp centered well inside the bounds. -/
theorem brush_span_is_twice_half_plus_one :
    ∀ s ∈ brush_sizes,
      touched_cols 15 15 (draw_brush 15 15 (fun _ _ => 0) 7 7 1 s) 1 = 2 * (s / 2) + 1 ∧
      touched_rows 15 15 (draw_brush 15 15 (fun _ _ => 0) 7 7 1 s) 1 = 2 * (s / 2) + 1 := by
  decide

theorem brush_span_is_twice_half_plus_one_witness :
    (6 ∈ brush_sizes) ∧
      (touched_cols 15 15 (draw_brush 15 15 (fun _ _ => 0) 7 7 1 6) 1 = 2 * (6 / 2) + 1 ∧
       touched_rows 15 15 (draw_brush 15 15 (fun _ _ => 0) 7 7 1 6) 1 = 2 * (6 / 2) + 1) :=
  ⟨by decide, brush_span_is_twice_half_plus_one 6 (by decide)⟩

/-- The stamp centers traversed by the loop of `draw_line` (code.py lines
45-49).  At step `i` of `steps = max(abs(dx), abs(dy))` the source computes
`int(x1 + (i/steps) * (x2 - x1))`; since `x1` is an integer, in exact
arithmetic this value is `(x1*steps + i*(x2 - x1)) / steps`, and Python
`int()` truncates toward zero, which is `Int.tdiv`.  When `steps == 0` the
source stamps a single point at `(x1, y1)` (lines 40-43). -/
def line_points (x1 y1 x2 y2 : Int) : List (Int × Int) :=
  let steps := max (x2 - x1).natAbs (y2 - y1).natAbs
  if steps = 0 then [(x1, y1)]
  else
    (List.range (steps + 1)).map
      (fun (i : Nat) =>
        (Int.tdiv (x1 * (steps : Int) + (i : Int) * (x2 - x1)) (steps : Int),
         Int.tdiv (y1 * (steps : Int) + (i : Int) * (y2 - y1)) (steps : Int)))

/-- code.py lines 33-49, `draw_line(bitmap, x1, y1, x2, y2, color, size)`:
stamp the brush at every interpolated point from `(x1, y1)` to `(x2, y2)`;
for a zero-length segment this is the single `draw_brush` call of the
`steps == 0` early return. -/
def draw_line (W H : Nat) (bm : Bitmap) (x1 y1 x2 y2 : Int) (color size : Nat) :
    Bitmap :=
  (line_points x1 y1 x2 y2).foldl
    (fun b p => draw_brush W H b p.1 p.2 color size) bm

/-- C9: a zero-length `draw_line` is exactly one brush stamp. -/
theorem draw_line_degenerate (W H : Nat) (bm : Bitmap) (x y : Int)
    (color size : Nat) :
    draw_line W H bm x y x y color size = draw_brush W H bm x y color size := by
  simp [draw_line, line_points]

/-- Truncating division `Int.tdiv` differs from the exact rational quotient
by strictly less than one. -/
theorem tdiv_sub_div_abs_lt_one (a : Int) (s : Nat) (hs : 0 < s) :
    |((a.tdiv (s : Int) : Int) : ℚ) - (a : ℚ) / (s : ℚ)| < 1 := by
  have hs0 : (0 : Int) ≤ (s : Int) := Int.ofNat_nonneg s
  rcases le_or_lt 0 a with ha | ha
  · have key : a.tdiv (s : Int) = ⌊(a : ℚ) / (s : ℚ)⌋ := by
      rw [Int.tdiv_eq_ediv ha hs0, ← Rat.floor_intCast_div_natCast a s]
    rw [key, abs_lt]
    have h1 : ((⌊(a : ℚ) / (s : ℚ)⌋ : Int) : ℚ) ≤ (a : ℚ) / (s : ℚ) := Int.floor_le _
    have h2 : (a : ℚ) / (s : ℚ) < ((⌊(a : ℚ) / (s : ℚ)⌋ : Int) : ℚ) + 1 :=
      Int.lt_floor_add_one _
    constructor <;> linarith
  · have key : a.tdiv (s : Int) = ⌈(a : ℚ) / (s : ℚ)⌉ := by
      have h1 : a.tdiv (s : Int) = -((-a).tdiv (s : Int)) := by
        rw [Int.neg_tdiv, neg_neg]
      have h3 : (((-a : Int) : ℚ)) / (s : ℚ) = -((a : ℚ) / (s : ℚ)) := by
        push_cast
        ring
      rw [h1, Int.tdiv_eq_ediv (by omega) hs0, ← Rat.floor_intCast_div_natCast (-a) s,
        h3, Int.floor_neg, neg_neg]
    rw [key, abs_lt]
    have h4 : (a : ℚ) / (s : ℚ) ≤ ((⌈(a : ℚ) / (s : ℚ)⌉ : Int) : ℚ) := Int.le_ceil _
    have h5 : ((⌈(a : ℚ) / (s : ℚ)⌉ : Int) : ℚ) < (a : ℚ) / (s : ℚ) + 1 :=
      Int.ceil_lt_add_one _
    constructor <;> linarith

/-- C8: `draw_line` is the fold of brush stamps over `line_points`; the
first stamp center is exactly `(x1, y1)` and the last exactly `(x2, y2)`,
and every stamp center differs from the exact interpolated point
`(x1 + (i/steps)*(x2-x1), y1 + (i/steps)*(y2-y1))` of the segment by less
than one pixel in each coordinate. -/
theorem line_stamps_endpoints_and_stays_near_segment (x1 y1 x2 y2 : Int) :
    (∀ (W H : Nat) (bm : Bitmap) (color size : Nat),
        draw_line W H bm x1 y1 x2 y2 color size =
          (line_points x1 y1 x2 y2).foldl
            (fun b p => draw_brush W H b p.1 p.2 color size) bm) ∧
    (line_points x1 y1 x2 y2).head? = some (x1, y1) ∧
    (line_points x1 y1 x2 y2).getLast? = some (x2, y2) ∧
    (∀ i : Nat, i ≤ max (x2 - x1).natAbs (y2 - y1).natAbs →
      |((((line_points x1 y1 x2 y2).getD i (x1, y1)).1 : Int) : ℚ) -
          ((x1 : ℚ) + ((i : ℚ) / ((max (x2 - x1).natAbs (y2 - y1).natAbs : Nat) : ℚ)) *
            ((x2 : ℚ) - (x1 : ℚ)))| < 1 ∧
      |((((line_points x1 y1 x2 y2).getD i (x1, y1)).2 : Int) : ℚ) -
          ((y1 : ℚ) + ((i : ℚ) / ((max (x2 - x1).natAbs (y2 - y1).natAbs : Nat) : ℚ)) *
            ((y2 : ℚ) - (y1 : ℚ)))| < 1) := by
  refine ⟨fun W H bm color size => rfl, ?_, ?_, ?_⟩
  · -- head
    by_cases h0 : max (x2 - x1).natAbs (y2 - y1).natAbs = 0
    · simp [line_points, h0]
    · rw [line_points]
      simp only [h0, if_false]
      rw [List.range_succ_eq_map, List.map_cons, List.head?_cons]
      have hx : x1 * ((max (x2 - x1).natAbs (y2 - y1).natAbs : Nat) : Int) +
          ((0 : Nat) : Int) * (x2 - x1) =
          x1 * ((max (x2 - x1).natAbs (y2 - y1).natAbs : Nat) : Int) := by
        simp
      have hy : y1 * ((max (x2 - x1).natAbs (y2 - y1).natAbs : Nat) : Int) +
          ((0 : Nat) : Int) * (y2 - y1) =
          y1 * ((max (x2 - x1).natAbs (y2 - y1).natAbs : Nat) : Int) := by
        simp
      rw [hx, hy, Int.mul_tdiv_cancel _ (by exact_mod_cast h0),
        Int.mul_tdiv_cancel _ (by exact_mod_cast h0)]
  · -- last
    by_cases h0 : max (x2 - x1).natAbs (y2 - y1).natAbs = 0
    · have hx : x2 = x1 := by
        have := Nat.max_eq_zero_iff.mp h0
        omega
      have hy : y2 = y1 := by
        have := Nat.max_eq_zero_iff.mp h0
        omega
      subst hx; subst hy
      simp [line_points]
    · rw [line_points]
      simp only [h0, if_false]
      rw [List.range_succ, List.map_append, List.map_cons, List.map_nil,
        List.getLast?_concat]
      have hx : x1 * ((max (x2 - x1).natAbs (y2 - y1).natAbs : Nat) : Int) +
          ((max (x2 - x1).natAbs (y2 - y1).natAbs : Nat) : Int) * (x2 - x1) =
          x2 * ((max (x2 - x1).natAbs (y2 - y1).natAbs : Nat) : Int) := by
        ring
      have hy : y1 * ((max (x2 - x1).natAbs (y2 - y1).natAbs : Nat) : Int) +
          ((max (x2 - x1).natAbs (y2 - y1).natAbs : Nat) : Int) * (y2 - y1) =
          y2 * ((max (x2 - x1).natAbs (y2 - y1).natAbs : Nat) : Int) := by
        ring
      rw [hx, hy, Int.mul_tdiv_cancel _ (by exact_mod_cast h0),
        Int.mul_tdiv_cancel _ (by exact_mod_cast h0)]
  · -- interpolation bound
    intro i hi
    set n : Nat := max (x2 - x1).natAbs (y2 - y1).natAbs with hn
    by_cases h0 : n = 0
    · have hx : x2 = x1 := by
        have := Nat.max_eq_zero_iff.mp (hn ▸ h0)
        omega
      have hy : y2 = y1 := by
        have := Nat.max_eq_zero_iff.mp (hn ▸ h0)
        omega
      subst hx; subst hy
      have hii : i = 0 := by omega
      subst hii
      simp [line_points]
    · have hs : 0 < n := Nat.pos_of_ne_zero h0
      have hgd : (line_points x1 y1 x2 y2).getD i (x1, y1) =
          (Int.tdiv (x1 * ((n : Nat) : Int) + (i : Int) * (x2 - x1)) ((n : Nat) : Int),
           Int.tdiv (y1 * ((n : Nat) : Int) + (i : Int) * (y2 - y1)) ((n : Nat) : Int)) := by
        rw [line_points]
        simp only [← hn, h0, if_false]
        rw [List.getD_eq_getElem?_getD, List.getElem?_map,
          List.getElem?_range (by omega)]
        rfl
      rw [hgd]
      have hsQ : ((n : Nat) : ℚ) ≠ 0 := by
        exact_mod_cast h0
      constructor
      · have harg : (x1 : ℚ) + ((i : ℚ) / ((n : Nat) : ℚ)) * ((x2 : ℚ) - (x1 : ℚ)) =
            ((x1 * ((n : Nat) : Int) + (i : Int) * (x2 - x1) : Int) : ℚ) /
              ((n : Nat) : ℚ) := by
          rw [eq_div_iff hsQ]
          push_cast
          field_simp
        rw [harg]
        exact tdiv_sub_div_abs_lt_one _ _ hs
      · have harg : (y1 : ℚ) + ((i : ℚ) / ((n : Nat) : ℚ)) * ((y2 : ℚ) - (y1 : ℚ)) =
            ((y1 * ((n : Nat) : Int) + (i : Int) * (y2 - y1) : Int) : ℚ) /
              ((n : Nat) : ℚ) := by
          rw [eq_div_iff hsQ]
          push_cast
          field_simp
        rw [harg]
        exact tdiv_sub_div_abs_lt_one _ _ hs

theorem line_stamps_endpoints_and_stays_near_segment_witness :
    ((1 : Nat) ≤ max ((2 : Int) - 0).natAbs ((1 : Int) - 0).natAbs) ∧
    |((((line_points 0 0 2 1).getD 1 ((0 : Int), (0 : Int))).1 : Int) : ℚ) -
        (((0 : Int) : ℚ) + (((1 : Nat) : ℚ) /
          ((max ((2 : Int) - 0).natAbs ((1 : Int) - 0).natAbs : Nat) : ℚ)) *
          (((2 : Int) : ℚ) - ((0 : Int) : ℚ)))| < 1 ∧
    |((((line_points 0 0 2 1).getD 1 ((0 : Int), (0 : Int))).2 : Int) : ℚ) -
        (((0 : Int) : ℚ) + (((1 : Nat) : ℚ) /
          ((max ((2 : Int) - 0).natAbs ((1 : Int) - 0).natAbs : Nat) : ℚ)) *
          (((1 : Int) : ℚ) - ((0 : Int) : ℚ)))| < 1 := by
  refine ⟨by decide, ?_, ?_⟩
  · exact ((line_stamps_endpoints_and_stays_near_segment 0 0 2 1).2.2.2 1 (by decide)).1
  · exact ((line_stamps_endpoints_and_stays_near_segment 0 0 2 1).2.2.2 1 (by decide)).2

theorem foldl_setPixel (c : Nat) (ps : List (Int × Int)) (bm : Bitmap) (px py : Int) :
    List.foldl (fun b (p : Int × Int) => setPixel b p.1 p.2 c) bm ps px py =
      if (px, py) ∈ ps then c else bm px py := by
  induction ps generalizing bm with
  | nil => simp
  | cons q ps ih =>
    rw [List.foldl_cons, ih]
    by_cases hq : q = (px, py)
    · subst hq
      by_cases hm : (px, py) ∈ ps
      · simp [hm]
      · simp [hm, setPixel]
    · have hval : setPixel bm q.1 q.2 c px py = bm px py := by
        have hne : ¬(px = q.1 ∧ py = q.2) := by
          rintro ⟨h1, h2⟩
          exact hq (Prod.ext h1.symm h2.symm)
        simp [setPixel, hne]
      rw [hval]
      have hiff : (px, py) ∈ q :: ps ↔ (px, py) ∈ ps := by
        constructor
        · intro h
          rcases List.mem_cons.mp h with h1 | h1
          · exact absurd h1.symm hq
          · exact h1
        · exact fun h => List.mem_cons_of_mem _ h
      exact if_congr hiff.symm rfl rfl

/-- code.py lines 246-248, the body of the clear-button action: two nested
loops over `range(palette_width, graphics.display.width)` and
`range(graphics.display.height)` setting every visited pixel to `0x0000`.
(The writes are unconditional; every visited coordinate is in bounds.) -/
def clear_drawing_area (bm : Bitmap) : Bitmap :=
  ((List.range (display_width - palette_width)).map
      (fun (k : Nat) => palette_width + k)).foldl
    (fun bmx x_clear =>
      (List.range display_height).foldl
        (fun bmy y_clear =>
          setPixel bmy ((x_clear : Nat) : Int) ((y_clear : Nat) : Int) 0)
        bmx)
    bm

/-- The coordinates visited by the clear loops. -/
def clear_cells : List (Int × Int) :=
  ((List.range (display_width - palette_width)).map
      (fun (k : Nat) => palette_width + k)).flatMap
    (fun xc => (List.range display_height).map
      (fun (yc : Nat) => (((xc : Nat) : Int), ((yc : Nat) : Int))))

theorem clear_drawing_area_eq_foldl (bm : Bitmap) :
    clear_drawing_area bm =
      clear_cells.foldl (fun b (p : Int × Int) => setPixel b p.1 p.2 0) bm := by
  unfold clear_drawing_area clear_cells
  rw [← foldl_foldl_eq_foldl_flatMap]
  simp [List.foldl_map]

theorem mem_clear_cells (px py : Int) :
    (px, py) ∈ clear_cells ↔
      (palette_width : Int) ≤ px ∧ px < (display_width : Int) ∧
        0 ≤ py ∧ py < (display_height : Int) := by
  simp only [clear_cells, List.mem_flatMap, List.mem_map, List.mem_range,
    Prod.mk.injEq, display_width, display_height, palette_width]
  constructor
  · rintro ⟨xc, ⟨k, hk, rfl⟩, yc, hyc, rfl, rfl⟩
    refine ⟨by omega, by omega, by omega, by omega⟩
  · rintro ⟨h1, h2, h3, h4⟩
    exact ⟨px.toNat, ⟨px.toNat - 160, by omega, by omega⟩, py.toNat,
      by omega, by omega, by omega⟩

/-- C7: the clear-button action sets exactly the pixels of the drawing area
(`palette_width ≤ x < display_width`, `0 ≤ y < display_height`) to `0x0000`
and leaves every other pixel, in particular the whole palette band
`x < palette_width`, unchanged. -/
theorem clear_clears_exactly_drawing_area (bm : Bitmap) (px py : Int) :
    clear_drawing_area bm px py =
      if (palette_width : Int) ≤ px ∧ px < (display_width : Int) ∧
          0 ≤ py ∧ py < (display_height : Int) then 0
      else bm px py := by
  rw [clear_drawing_area_eq_foldl, foldl_setPixel]
  exact if_congr (mem_clear_cells px py) rfl rfl

/-- The observable side effects of one processed touch sample, beyond the
state itself: the clear-button action firing (code.py lines 243-254) and the
size-button action firing (lines 260-263). -/
inductive PaintEvent where
  | clearFired
  | sizeFired
deriving DecidableEq, Repr

/-- The mutable program state of the main loop (code.py lines 201-213):
the canvas bitmap plus every global the loop reads or writes. -/
structure PainterState where
  bitmap : Bitmap
  current_color : Nat
  current_brush_index : Nat
  pixel_size : Nat
  last_draw_pos : Option (Int × Int)
  is_drawing : Bool
  size_button_pressed : Bool
  size_button_last_change : ℚ
  clear_button_pressed : Bool
  clear_button_last_change : ℚ
  last_touch_time : ℚ

/-- Processing of one in-range touch sample `(x, y)` read at `current_time`,
the body of the `for touch in graphics.touch.touches` loop (code.py lines
228-290).  An out-of-bounds sample is skipped (`continue`, line 233),
leaving the state untouched; every processed sample ends with
`last_touch_time = current_time` (line 290).  Returns the successor state
together with the button actions that fired. -/
def process_touch (st : PainterState) (current_time : ℚ) (x y : Int) :
    PainterState × List PaintEvent :=
  if 0 ≤ x ∧ x < (display_width : Int) ∧ 0 ≤ y ∧ y < (display_height : Int) then
    if x < (palette_width : Int) then
      -- `section = y // section_height` (line 237)
      let sect := y / (section_height : Int)
      if sect = 7 then
        -- clear button branch (lines 239-254)
        if st.clear_button_pressed = false then
          if current_time - st.clear_button_last_change > button_debounce_time then
            ({ st with
                bitmap := clear_drawing_area st.bitmap,
                clear_button_pressed := true,
                clear_button_last_change := current_time,
                last_draw_pos := none,
                is_drawing := false,
                last_touch_time := current_time }, [PaintEvent.clearFired])
          else ({ st with last_touch_time := current_time }, [])
        else ({ st with last_touch_time := current_time }, [])
      else if sect = 8 then
        -- size button branch (lines 256-268)
        if st.size_button_pressed = false then
          if current_time - st.size_button_last_change > button_debounce_time then
            ({ st with
                current_brush_index := (st.current_brush_index + 1) % brush_sizes.length,
                pixel_size :=
                  brush_sizes.getD ((st.current_brush_index + 1) % brush_sizes.length) 0,
                size_button_pressed := true,
                size_button_last_change := current_time,
                last_draw_pos := none,
                is_drawing := false,
                last_touch_time := current_time }, [PaintEvent.sizeFired])
          else ({ st with last_touch_time := current_time }, [])
        else ({ st with last_touch_time := current_time }, [])
      else if sect < 7 then
        -- color selection branch (lines 270-276)
        ({ st with
            current_color := st.bitmap x y,
            last_draw_pos := none,
            is_drawing := false,
            last_touch_time := current_time }, [])
      else ({ st with last_touch_time := current_time }, [])
    else
      -- drawing area branch (lines 278-288)
      ({ st with
          bitmap :=
            match st.is_drawing, st.last_draw_pos with
            | true, some p =>
              draw_line display_width display_height st.bitmap p.1 p.2 x y
                st.current_color st.pixel_size
            | _, _ =>
              draw_brush display_width display_height st.bitmap x y
                st.current_color st.pixel_size,
          last_draw_pos := some (x, y),
          is_drawing := true,
          last_touch_time := current_time }, [])
  else (st, [])

/-- The `else` branch of the main loop (code.py lines 294-302), run when no
touch is registered: reset the stroke state when a stroke was in progress
and unlatch both buttons. -/
def process_release (st : PainterState) : PainterState :=
  let st1 :=
    if st.is_drawing then
      { st with last_draw_pos := none, is_drawing := false }
    else st
  { st1 with size_button_pressed := false, clear_button_pressed := false }

/-- Sequential processing of a batch of touch samples, each given as
`(current_time, x, y)`, accumulating the fired button actions. -/
def process_touches :
    PainterState → List (ℚ × Int × Int) → PainterState × List PaintEvent
  | st, [] => (st, [])
  | st, s :: rest =>
    let r := process_touch st s.1 s.2.1 s.2.2
    let r2 := process_touches r.1 rest
    (r2.1, r.2 ++ r2.2)

/-- One iteration of the `while True` polling loop (code.py lines 222-302):
when touching, the sample batch is processed only if more than `touch_delay`
elapsed since the last processed sample; otherwise the release branch runs. -/
def loop_step (st : PainterState) (current_time : ℚ)
    (touches : Option (List (Int × Int))) : PainterState × List PaintEvent :=
  match touches with
  | some ts =>
    if current_time - st.last_touch_time > touch_delay then
      process_touches st (ts.map (fun p => (current_time, p.1, p.2)))
    else (st, [])
  | none => (process_release st, [])

/-- The outcome of classifying one touch sample, following the branch
structure of the dispatch (code.py lines 232-288). -/
inductive Hit where
  | clearButton
  | sizeButton
  | paletteColor (sect : Int)
  | canvas
  | ignored
deriving DecidableEq, Repr

/-- The region dispatch of the main loop (code.py lines 232-288) as a pure
classifier: out-of-bounds samples are skipped; in the left column the band
index `y // section_height` selects clear (7), size (8) or a palette color
(0-6, any other band falls through all branches and is ignored); everything
at `x ≥ palette_width` is a canvas hit. -/
def classify (x y : Int) : Hit :=
  if 0 ≤ x ∧ x < (display_width : Int) ∧ 0 ≤ y ∧ y < (display_height : Int) then
    if x < (palette_width : Int) then
      let sect := y / (section_height : Int)
      if sect = 7 then Hit.clearButton
      else if sect = 8 then Hit.sizeButton
      else if sect < 7 then Hit.paletteColor sect
      else Hit.ignored
    else Hit.canvas
  else Hit.ignored

/-- C5: region boundaries of the dispatch, at the program's configuration
(`palette_width = 160`, `section_height = 720 // 9 = 80`): `(159, 0)` is a
palette hit, `(160, 0)` a canvas hit, every in-bounds left-column point of
band 7 the clear button, every one of band 8 the size button, and the very
last row `y = 9*section_height - 1 = 719` also the size button. -/
theorem region_boundaries (x y : Int) :
    classify 159 0 = Hit.paletteColor 0 ∧
    classify 160 0 = Hit.canvas ∧
    (0 ≤ x → x < (palette_width : Int) → 0 ≤ y → y < (display_height : Int) →
      y / (section_height : Int) = 7 → classify x y = Hit.clearButton) ∧
    (0 ≤ x → x < (palette_width : Int) → 0 ≤ y → y < (display_height : Int) →
      y / (section_height : Int) = 8 → classify x y = Hit.sizeButton) ∧
    classify 0 (9 * (section_height : Int) - 1) = Hit.sizeButton := by
  have hlt : (palette_width : Int) ≤ (display_width : Int) := by decide
  refine ⟨by decide, by decide, ?_, ?_, by decide⟩
  · intro h1 h2 h3 h4 h5
    rw [classify, if_pos ⟨h1, by omega, h3, h4⟩, if_pos h2]
    simp [h5]
  · intro h1 h2 h3 h4 h5
    rw [classify, if_pos ⟨h1, by omega, h3, h4⟩, if_pos h2]
    simp [h5]

theorem region_boundaries_witness :
    ((0 : Int) ≤ 0 ∧ (0 : Int) < (palette_width : Int) ∧
      (0 : Int) ≤ 560 ∧ (560 : Int) < (display_height : Int) ∧
      (560 : Int) / (section_height : Int) = 7 ∧
      (0 : Int) ≤ 640 ∧ (640 : Int) < (display_height : Int) ∧
      (640 : Int) / (section_height : Int) = 8) ∧
    classify 0 560 = Hit.clearButton ∧
    classify 0 640 = Hit.sizeButton :=
  ⟨by decide,
   (region_boundaries 0 560).2.2.1 (by decide) (by decide) (by decide)
     (by decide) (by decide),
   (region_boundaries 0 640).2.2.2.1 (by decide) (by decide) (by decide)
     (by decide) (by decide)⟩

/-- C6: a palette hit (left column, band below 7) sets the drawing color to
the very pixel value stored in the rendered canvas bitmap at the touch
point, not to a value from any separate color table. -/
theorem palette_pick_reads_bitmap_pixel (st : PainterState) (t : ℚ) (x y : Int)
    (h1 : 0 ≤ x) (h2 : x < (palette_width : Int)) (h3 : 0 ≤ y)
    (h4 : y < (display_height : Int)) (h5 : y / (section_height : Int) < 7) :
    (process_touch st t x y).1.current_color = st.bitmap x y := by
  have hlt : (palette_width : Int) ≤ (display_width : Int) := by decide
  rw [process_touch, if_pos ⟨h1, by omega, h3, h4⟩, if_pos h2]
  have h7 : ¬(y / (section_height : Int) = 7) := by omega
  have h8 : ¬(y / (section_height : Int) = 8) := by omega
  simp [h7, h8, h5]

/-- A concrete painter state: the state right after startup (code.py lines
201-213), with a blank canvas and the initial white drawing color. -/
def initial_state : PainterState where
  bitmap := fun _ _ => 0
  current_color := 0xFFFF
  current_brush_index := 2
  pixel_size := 6
  last_draw_pos := none
  is_drawing := false
  size_button_pressed := false
  size_button_last_change := 0
  clear_button_pressed := false
  clear_button_last_change := 0
  last_touch_time := 0

theorem palette_pick_reads_bitmap_pixel_witness :
    ((0 : Int) ≤ 5 ∧ (5 : Int) < (palette_width : Int) ∧ (0 : Int) ≤ 100 ∧
      (100 : Int) < (display_height : Int) ∧
      (100 : Int) / (section_height : Int) < 7) ∧
    (process_touch initial_state 1 5 100).1.current_color =
      initial_state.bitmap 5 100 :=
  ⟨by decide,
   palette_pick_reads_bitmap_pixel initial_state 1 5 100 (by decide) (by decide)
     (by decide) (by decide) (by decide)⟩

theorem one_sub_zero_gt_debounce : (1 : ℚ) - 0 > button_debounce_time := by
  norm_num [button_debounce_time]

theorem zero_sub_zero_not_gt_debounce :
    ¬((0 : ℚ) - 0 > button_debounce_time) := by
  norm_num [button_debounce_time]

theorem zero_sub_zero_lt_debounce : (0 : ℚ) - 0 < button_debounce_time := by
  norm_num [button_debounce_time]

/-- C3 counterexample: an in-bounds non-canvas hit does not always leave the
stroke tracker idle.  Hitting the clear button (`y = 560`, band 7) while the
clear latch is already pressed takes the debounce `else` path (code.py line
241 fails), which does not touch `is_drawing`/`last_draw_pos`: the stroke in
progress survives the non-canvas hit. -/
theorem nonCanvas_hit_not_always_reset :
    ¬(((process_touch
          { bitmap := fun _ _ => 0
            current_color := 0xFFFF
            current_brush_index := 2
            pixel_size := 6
            last_draw_pos := some (300, 300)
            is_drawing := true
            size_button_pressed := false
            size_button_last_change := 0
            clear_button_pressed := true
            clear_button_last_change := 0
            last_touch_time := 0 } 1 0 560).1.is_drawing = false) ∧
      ((process_touch
          { bitmap := fun _ _ => 0
            current_color := 0xFFFF
            current_brush_index := 2
            pixel_size := 6
            last_draw_pos := some (300, 300)
            is_drawing := true
            size_button_pressed := false
            size_button_last_change := 0
            clear_button_pressed := true
            clear_button_last_change := 0
            last_touch_time := 0 } 1 0 560).1.last_draw_pos = none)) := by
  decide

/-- C3 amended: an in-bounds non-canvas hit resets the stroke tracker to
idle when it is a palette pick, or when the hit button's debounced action
actually fires (button unlatched and cooldown elapsed); a button hit made
while that button is latched or before its cooldown has elapsed leaves
`is_drawing` and `last_draw_pos` unchanged. -/
theorem nonCanvas_hit_reset_cases (st : PainterState) (t : ℚ) (x y : Int)
    (h1 : 0 ≤ x) (h2 : x < (palette_width : Int)) (h3 : 0 ≤ y)
    (h4 : y < (display_height : Int)) :
    (y / (section_height : Int) < 7 →
      (process_touch st t x y).1.is_drawing = false ∧
      (process_touch st t x y).1.last_draw_pos = none) ∧
    (y / (section_height : Int) = 7 → st.clear_button_pressed = false →
      t - st.clear_button_last_change > button_debounce_time →
      (process_touch st t x y).1.is_drawing = false ∧
      (process_touch st t x y).1.last_draw_pos = none) ∧
    (y / (section_height : Int) = 8 → st.size_button_pressed = false →
      t - st.size_button_last_change > button_debounce_time →
      (process_touch st t x y).1.is_drawing = false ∧
      (process_touch st t x y).1.last_draw_pos = none) ∧
    (y / (section_height : Int) = 7 →
      (st.clear_button_pressed = true ∨
        ¬(t - st.clear_button_last_change > button_debounce_time)) →
      (process_touch st t x y).1.is_drawing = st.is_drawing ∧
      (process_touch st t x y).1.last_draw_pos = st.last_draw_pos) ∧
    (y / (section_height : Int) = 8 →
      (st.size_button_pressed = true ∨
        ¬(t - st.size_button_last_change > button_debounce_time)) →
      (process_touch st t x y).1.is_drawing = st.is_drawing ∧
      (process_touch st t x y).1.last_draw_pos = st.last_draw_pos) := by
  have hlt : (palette_width : Int) ≤ (display_width : Int) := by decide
  have hstep : process_touch st t x y =
      (if y / (section_height : Int) = 7 then
        (if st.clear_button_pressed = false then
          (if t - st.clear_button_last_change > button_debounce_time then
            ({ st with
                bitmap := clear_drawing_area st.bitmap,
                clear_button_pressed := true,
                clear_button_last_change := t,
                last_draw_pos := none,
                is_drawing := false,
                last_touch_time := t }, [PaintEvent.clearFired])
          else ({ st with last_touch_time := t }, []))
        else ({ st with last_touch_time := t }, []))
      else if y / (section_height : Int) = 8 then
        (if st.size_button_pressed = false then
          (if t - st.size_button_last_change > button_debounce_time then
            ({ st with
                current_brush_index := (st.current_brush_index + 1) % brush_sizes.length,
                pixel_size :=
                  brush_sizes.getD ((st.current_brush_index + 1) % brush_sizes.length) 0,
                size_button_pressed := true,
                size_button_last_change := t,
                last_draw_pos := none,
                is_drawing := false,
                last_touch_time := t }, [PaintEvent.sizeFired])
          else ({ st with last_touch_time := t }, []))
        else ({ st with last_touch_time := t }, []))
      else if y / (section_height : Int) < 7 then
        ({ st with
            current_color := st.bitmap x y,
            last_draw_pos := none,
            is_drawing := false,
            last_touch_time := t }, [])
      else ({ st with last_touch_time := t }, [])) := by
    rw [process_touch, if_pos ⟨h1, by omega, h3, h4⟩, if_pos h2]
  refine ⟨?_, ?_, ?_, ?_, ?_⟩
  · intro h5
    have h7 : ¬(y / (section_height : Int) = 7) := by omega
    have h8 : ¬(y / (section_height : Int) = 8) := by omega
    rw [hstep]
    simp [h7, h8, h5]
  · intro h5 hp hc
    rw [hstep]
    simp [h5, hp, hc]
  · intro h5 hp hc
    have h7 : ¬(y / (section_height : Int) = 7) := by omega
    rw [hstep]
    simp [h7, h5, hp, hc]
  · intro h5 hcase
    rw [hstep]
    rcases hcase with hp | hnc
    · simp [h5, hp]
    · by_cases hp : st.clear_button_pressed = false
      · simp [h5, hp, hnc]
      · simp [h5, hp]
  · intro h5 hcase
    have h7 : ¬(y / (section_height : Int) = 7) := by omega
    rw [hstep]
    rcases hcase with hp | hnc
    · simp [h7, h5, hp]
    · by_cases hp : st.size_button_pressed = false
      · simp [h7, h5, hp, hnc]
      · simp [h7, h5, hp]

theorem nonCanvas_hit_reset_cases_witness :
    ((0 : Int) ≤ 0 ∧ (0 : Int) < (palette_width : Int) ∧
      (0 : Int) ≤ 100 ∧ (100 : Int) < (display_height : Int) ∧
      (100 : Int) / (section_height : Int) < 7 ∧
      (560 : Int) / (section_height : Int) = 7 ∧
      (640 : Int) / (section_height : Int) = 8) ∧
    ((process_touch initial_state 1 0 100).1.is_drawing = false ∧
      (process_touch initial_state 1 0 100).1.last_draw_pos = none) ∧
    ((process_touch initial_state 1 0 560).1.is_drawing = false ∧
      (process_touch initial_state 1 0 560).1.last_draw_pos = none) ∧
    ((process_touch initial_state 1 0 640).1.is_drawing = false ∧
      (process_touch initial_state 1 0 640).1.last_draw_pos = none) ∧
    ((process_touch initial_state 0 0 560).1.is_drawing = initial_state.is_drawing ∧
      (process_touch initial_state 0 0 560).1.last_draw_pos =
        initial_state.last_draw_pos) ∧
    ((process_touch initial_state 0 0 640).1.is_drawing = initial_state.is_drawing ∧
      (process_touch initial_state 0 0 640).1.last_draw_pos =
        initial_state.last_draw_pos) :=
  ⟨by decide,
   (nonCanvas_hit_reset_cases initial_state 1 0 100 (by decide) (by decide)
     (by decide) (by decide)).1 (by decide),
   (nonCanvas_hit_reset_cases initial_state 1 0 560 (by decide) (by decide)
     (by decide) (by decide)).2.1 (by decide) (by decide) one_sub_zero_gt_debounce,
   (nonCanvas_hit_reset_cases initial_state 1 0 640 (by decide) (by decide)
     (by decide) (by decide)).2.2.1 (by decide) (by decide) one_sub_zero_gt_debounce,
   (nonCanvas_hit_reset_cases initial_state 0 0 560 (by decide) (by decide)
     (by decide) (by decide)).2.2.2.1 (by decide)
     (Or.inr zero_sub_zero_not_gt_debounce),
   (nonCanvas_hit_reset_cases initial_state 0 0 640 (by decide) (by decide)
     (by decide) (by decide)).2.2.2.2 (by decide)
     (Or.inr zero_sub_zero_not_gt_debounce)⟩

/-- The size-button region condition of the dispatch: in display bounds, in
the left column, and in band 8 (code.py lines 232, 236, 256). -/
abbrev in_size_button (x y : Int) : Prop :=
  0 ≤ x ∧ x < (display_width : Int) ∧ 0 ≤ y ∧ y < (display_height : Int) ∧
    x < (palette_width : Int) ∧ y / (section_height : Int) = 8

theorem process_touch_size_latched (st : PainterState) (t : ℚ) (x y : Int)
    (hin : in_size_button x y) (hp : st.size_button_pressed = true) :
    process_touch st t x y = ({ st with last_touch_time := t }, []) := by
  obtain ⟨h1, h2, h3, h4, h5, h6⟩ := hin
  rw [process_touch, if_pos ⟨h1, h2, h3, h4⟩, if_pos h5]
  simp [h6, hp]

theorem process_touch_size_fires (st : PainterState) (t : ℚ) (x y : Int)
    (hin : in_size_button x y) (hp : st.size_button_pressed = false)
    (hc : t - st.size_button_last_change > button_debounce_time) :
    (process_touch st t x y).2 = [PaintEvent.sizeFired] ∧
      (process_touch st t x y).1.size_button_pressed = true := by
  obtain ⟨h1, h2, h3, h4, h5, h6⟩ := hin
  rw [process_touch, if_pos ⟨h1, h2, h3, h4⟩, if_pos h5]
  simp [h6, hp, hc]

theorem process_touch_size_cooldown (st : PainterState) (t : ℚ) (x y : Int)
    (hin : in_size_button x y) (hp : st.size_button_pressed = false)
    (hc : ¬(t - st.size_button_last_change > button_debounce_time)) :
    (process_touch st t x y).2 = [] := by
  obtain ⟨h1, h2, h3, h4, h5, h6⟩ := hin
  rw [process_touch, if_pos ⟨h1, h2, h3, h4⟩, if_pos h5]
  simp [h6, hp, hc]

theorem process_touches_size_latched (st : PainterState)
    (samples : List (ℚ × Int × Int)) (hp : st.size_button_pressed = true)
    (hin : ∀ s ∈ samples, in_size_button s.2.1 s.2.2) :
    (process_touches st samples).2 = [] ∧
      (process_touches st samples).1.size_button_pressed = true := by
  induction samples generalizing st with
  | nil => exact ⟨rfl, hp⟩
  | cons s rest ih =>
    have hstep := process_touch_size_latched st s.1 s.2.1 s.2.2
      (hin s (List.mem_cons_self s rest)) hp
    have hrest := ih { st with last_touch_time := s.1 } hp
      (fun q hq => hin q (List.mem_cons_of_mem s hq))
    simp only [process_touches, hstep]
    simp [hrest.1, hrest.2]

theorem process_release_fields (st : PainterState) :
    (process_release st).size_button_pressed = false ∧
    (process_release st).clear_button_pressed = false ∧
    (process_release st).size_button_last_change = st.size_button_last_change ∧
    (process_release st).clear_button_last_change = st.clear_button_last_change := by
  unfold process_release
  by_cases h : st.is_drawing <;> simp [h]

/-- C4: size-button debouncing.  (a) Starting unlatched with more than the
cooldown elapsed, a run of consecutive size-button samples (all within a
`3 × cooldown` window, as in the spec scenario of a finger held for 1.5 s)
fires the action exactly once.  (b) After a touch release, a size-button
touch more than the cooldown after the last activation fires again.
(c) After a touch release, a size-button touch before the cooldown has
elapsed fires nothing. -/
theorem size_button_fires_exactly_once (st : PainterState) (t0 : ℚ)
    (x0 y0 : Int) (rest : List (ℚ × Int × Int)) (t : ℚ) (x y : Int) :
    (st.size_button_pressed = false →
      t0 - st.size_button_last_change > button_debounce_time →
      in_size_button x0 y0 →
      (∀ s ∈ rest, in_size_button s.2.1 s.2.2 ∧
        t0 ≤ s.1 ∧ s.1 ≤ t0 + 3 * button_debounce_time) →
      List.count PaintEvent.sizeFired
        (process_touches st ((t0, x0, y0) :: rest)).2 = 1) ∧
    (in_size_button x y →
      t - st.size_button_last_change > button_debounce_time →
      (process_touch (process_release st) t x y).2 = [PaintEvent.sizeFired]) ∧
    (in_size_button x y →
      t - st.size_button_last_change < button_debounce_time →
      (process_touch (process_release st) t x y).2 = []) := by
  refine ⟨?_, ?_, ?_⟩
  · intro hp hc hin0 hrest
    have hfire := process_touch_size_fires st t0 x0 y0 hin0 hp hc
    have hlat := process_touches_size_latched (process_touch st t0 x0 y0).1 rest
      hfire.2 (fun q hq => (hrest q hq).1)
    simp only [process_touches]
    rw [List.count_append, hfire.1, hlat.1]
    decide
  · intro hin hc
    have hr := process_release_fields st
    exact (process_touch_size_fires (process_release st) t x y hin hr.1
      (by rw [hr.2.2.1]; exact hc)).1
  · intro hin hc
    have hr := process_release_fields st
    exact process_touch_size_cooldown (process_release st) t x y hin hr.1
      (by rw [hr.2.2.1]; exact not_lt.mpr hc.le)

theorem size_button_fires_exactly_once_witness :
    (initial_state.size_button_pressed = false ∧
      (1 : ℚ) - initial_state.size_button_last_change > button_debounce_time ∧
      in_size_button 0 640 ∧
      (0 : ℚ) - initial_state.size_button_last_change < button_debounce_time) ∧
    List.count PaintEvent.sizeFired
      (process_touches initial_state [((1 : ℚ), (0 : Int), (640 : Int))]).2 = 1 ∧
    (process_touch (process_release initial_state) 1 0 640).2 =
      [PaintEvent.sizeFired] ∧
    (process_touch (process_release initial_state) 0 0 640).2 = [] :=
  ⟨⟨by decide, one_sub_zero_gt_debounce, by decide, zero_sub_zero_lt_debounce⟩,
   (size_button_fires_exactly_once initial_state 1 0 640 [] 0 0 0).1 (by decide)
     one_sub_zero_gt_debounce (by decide) (fun s hs => absurd hs (List.not_mem_nil s)),
   (size_button_fires_exactly_once initial_state 1 0 640 [] 1 0 640).2.1
     (by decide) one_sub_zero_gt_debounce,
   (size_button_fires_exactly_once initial_state 0 0 640 [] 0 0 640).2.2
     (by decide) zero_sub_zero_lt_debounce⟩

theorem process_touch_preserves_inv (st : PainterState) (t : ℚ) (x y : Int)
    (h : st.is_drawing = true ↔ st.last_draw_pos ≠ none) :
    (process_touch st t x y).1.is_drawing = true ↔
      (process_touch st t x y).1.last_draw_pos ≠ none := by
  simp only [process_touch]
  split_ifs <;> simp [h]

theorem process_release_preserves_inv (st : PainterState)
    (h : st.is_drawing = true ↔ st.last_draw_pos ≠ none) :
    (process_release st).is_drawing = true ↔
      (process_release st).last_draw_pos ≠ none := by
  unfold process_release
  by_cases hd : st.is_drawing
  · simp [hd]
  · have hpos : st.last_draw_pos = none := by
      by_contra hne
      exact hd (h.mpr hne)
    simp [hd, hpos]

theorem process_touches_preserves_inv (st : PainterState)
    (samples : List (ℚ × Int × Int))
    (h : st.is_drawing = true ↔ st.last_draw_pos ≠ none) :
    (process_touches st samples).1.is_drawing = true ↔
      (process_touches st samples).1.last_draw_pos ≠ none := by
  induction samples generalizing st with
  | nil => exact h
  | cons s rest ih =>
    simp only [process_touches]
    exact ih (process_touch st s.1 s.2.1 s.2.2).1
      (process_touch_preserves_inv st s.1 s.2.1 s.2.2 h)

theorem loop_step_preserves_inv (st : PainterState) (t : ℚ)
    (touches : Option (List (Int × Int)))
    (h : st.is_drawing = true ↔ st.last_draw_pos ≠ none) :
    (loop_step st t touches).1.is_drawing = true ↔
      (loop_step st t touches).1.last_draw_pos ≠ none := by
  match touches with
  | some ts =>
    simp only [loop_step]
    split_ifs
    · exact process_touches_preserves_inv st _ h
    · exact h
  | none =>
    simp only [loop_step]
    exact process_release_preserves_inv st h

/-- C10: the stroke-state invariant `is_drawing = true ↔ last_draw_pos ≠
none` holds for the initial state and is preserved by the processing of any
single touch sample, by the release branch, and by a whole iteration of the
polling loop. -/
theorem stroke_flag_position_invariant (st : PainterState) (t : ℚ) (x y : Int)
    (touches : Option (List (Int × Int)))
    (h : st.is_drawing = true ↔ st.last_draw_pos ≠ none) :
    (initial_state.is_drawing = true ↔ initial_state.last_draw_pos ≠ none) ∧
    ((process_touch st t x y).1.is_drawing = true ↔
      (process_touch st t x y).1.last_draw_pos ≠ none) ∧
    ((process_release st).is_drawing = true ↔
      (process_release st).last_draw_pos ≠ none) ∧
    ((loop_step st t touches).1.is_drawing = true ↔
      (loop_step st t touches).1.last_draw_pos ≠ none) :=
  ⟨by simp [initial_state],
   process_touch_preserves_inv st t x y h,
   process_release_preserves_inv st h,
   loop_step_preserves_inv st t touches h⟩

theorem stroke_flag_position_invariant_witness :
    (initial_state.is_drawing = true ↔ initial_state.last_draw_pos ≠ none) ∧
    ((process_touch initial_state 1 300 300).1.is_drawing = true ↔
      (process_touch initial_state 1 300 300).1.last_draw_pos ≠ none) ∧
    ((process_release initial_state).is_drawing = true ↔
      (process_release initial_state).last_draw_pos ≠ none) ∧
    ((loop_step initial_state 1 none).1.is_drawing = true ↔
      (loop_step initial_state 1 none).1.last_draw_pos ≠ none) := by
  have h := stroke_flag_position_invariant initial_state 1 300 300 none
    (by decide)
  exact ⟨h.1, h.2.1, h.2.2.1, h.2.2.2⟩
